import Mathlib

/-!
Verification development for the Smart-University-Scheduler repository
(two Python source files: `genetic_algorithm_schedulerPYGAD.py` and
`student_scheduler_ga.py`).

Shallow embedding conventions:
* identifiers (course / teacher / room / student ids) are `Nat`;
* a timeslot of the institution variant is built by the source as the
  string `f"{day}_{hour:02d}:00"` and later split again at the single
  underscore (day names contain no underscore, so the rendering is
  injective and the split is its exact inverse); we embed it as the pair
  of its two components, the day name and the rendered time characters;
* clock-time strings are embedded as `List Char` and Python's
  lexicographic string comparison is embedded as `lexLt` / `lexLe`
  (code-point comparison, shortest-prefix rule);
* pandas row iteration becomes iteration over a Lean list of row
  structures in the same order; `iloc[0]` on a possibly-empty selection
  becomes `List.head?` (raising = `none`);
* a chromosome is a `List Nat` of already-truncated gene values (the
  source applies `int(...)` to each float gene; an in-bounds float in
  `[0, high)` truncates to a natural number `< high`);
* fallible code (Python exceptions) returns `Option` / `Except`;
* real arithmetic of the fitness value `1.0 / (penalty + 1e-9)` is
  embedded exactly over `ℚ`.
-/

/-- Characters of Python's `f"{n:02d}"` for `n ≤ 99`: the zero-padded
two-digit decimal rendering. -/
def twoDigitChars (n : Nat) : List Char :=
  [Nat.digitChar (n / 10), Nat.digitChar (n % 10)]

/-- Characters of the time component `f"{hour:02d}:00"` of a generated
timeslot string. -/
def timeChars (hour : Nat) : List Char :=
  twoDigitChars hour ++ [':', '0', '0']

/-- Characters of a zero-padded `HH:MM` clock-time string. -/
def hhmmChars (h m : Nat) : List Char :=
  twoDigitChars h ++ ':' :: twoDigitChars m

/-- Python's `<` on strings, embedded on the character lists:
lexicographic by code point, a strict prefix is smaller. -/
def lexLt : List Char → List Char → Bool
  | [], [] => false
  | [], _ :: _ => true
  | _ :: _, [] => false
  | a :: as, b :: bs => if a < b then true else if b < a then false else lexLt as bs

/-- Python's `<=` on strings: `s <= t` iff not `t < s` (total order). -/
def lexLe (s t : List Char) : Bool := ! lexLt t s

/-- A timeslot of the institution variant: the two components of the
generated string `f"{day}_{hour:02d}:00"`. -/
structure Timeslot where
  day : String
  time : List Char
deriving DecidableEq, Repr

/-- The five weekday names used by `DataPreparer._prepare_data`. -/
def weekDays : List String :=
  ["Sunday", "Monday", "Tuesday", "Wednesday", "Thursday"]

/-- The hours `range(8, 17)` used by `DataPreparer._prepare_data`. -/
def slotHours : List Nat := List.range' 8 9

/-- The timeslot universe built by `DataPreparer._prepare_data`:
`for day in days: for hour in hours: append f"{day}_{hour:02d}:00"`. -/
def allTimeslots : List Timeslot :=
  weekDays.flatMap (fun d => slotHours.map (fun h => ⟨d, timeChars h⟩))

/-- A row of the `courses` table (columns used by the source). -/
structure CourseRow where
  course_id : Nat
  lectures_per_week : Nat
deriving DecidableEq, Repr

/-- A row of the `teacher_courses` table. -/
structure TeacherCourseRow where
  teacher_id : Nat
  course_id : Nat
deriving DecidableEq, Repr

/-- A row of the `teacher_preferences` table. -/
structure PrefRow where
  teacher_id : Nat
  day : String
  preferred_start_time : List Char
  preferred_end_time : List Char
deriving DecidableEq, Repr

/-- One lecture-hour that must be placed: an entry of
`DataPreparer.lectures_to_schedule`. -/
structure LectureReq where
  course_id : Nat
  teacher_id : Nat
deriving DecidableEq, Repr

/-- `courses[courses['course_id'] == course_id]['lectures_per_week'].iloc[0]`:
the first matching row's count; `.iloc[0]` on an empty selection raises,
hence `Option`. -/
def lecturesPerWeek (courses : List CourseRow) (cid : Nat) : Option Nat :=
  ((courses.filter (fun r => r.course_id == cid)).head?).map
    (fun r => r.lectures_per_week)

/-- The `lectures_to_schedule` build loop of `DataPreparer._prepare_data`:
for each `teacher_courses` row in order, append `lectures_per_week`
copies of `{course_id, teacher_id}`. -/
def lecturesToSchedule (courses : List CourseRow) :
    List TeacherCourseRow → Option (List LectureReq)
  | [] => some []
  | tc :: rest => do
      let n ← lecturesPerWeek courses tc.course_id
      let tail ← lecturesToSchedule courses rest
      pure (List.replicate n ⟨tc.course_id, tc.teacher_id⟩ ++ tail)

/-- The `teacher_pref_dict` lookup for one `(teacher_id, day)` key: the
`(preferred_start_time, preferred_end_time)` pairs of the matching
preference rows, in table order (the dict key exists iff this list is
nonempty). -/
def prefWindows (prefs : List PrefRow) (t : Nat) (d : String) :
    List (List Char × List Char) :=
  (prefs.filter (fun r => r.teacher_id == t && r.day == d)).map
    (fun r => (r.preferred_start_time, r.preferred_end_time))

/-- One decoded assignment of the institution variant. -/
structure Lecture where
  course_id : Nat
  teacher_id : Nat
  room_id : Nat
  timeslot : Timeslot
deriving DecidableEq, Repr

/-- The `(lecture['teacher_id'], lecture['timeslot'])` booking key. -/
def teacherKey (l : Lecture) : Nat × Timeslot := (l.teacher_id, l.timeslot)

/-- The `(lecture['room_id'], lecture['timeslot'])` booking key. -/
def roomKey (l : Lecture) : Nat × Timeslot := (l.room_id, l.timeslot)

/-- The availability term of `SchedulerGA._calculate_penalty` for one
lecture: `+500` when `(teacher, day)` has no preference entry, else
`+500` unless `any(start <= time < end)` over the windows. -/
def availabilityPenalty (prefs : List PrefRow) (l : Lecture) : Nat :=
  let ws := prefWindows prefs l.teacher_id l.timeslot.day
  if ws.isEmpty then 500
  else if ws.any (fun w => lexLe w.1 l.timeslot.time && lexLt l.timeslot.time w.2)
  then 0 else 500

/-- The scan loop of `SchedulerGA._calculate_penalty`, with the
`teacher_bookings` / `room_bookings` dict key sets made explicit:
`+1000` when a key is already booked, else the key is recorded. -/
def calcPenaltyAux (prefs : List PrefRow) :
    List Lecture → List (Nat × Timeslot) → List (Nat × Timeslot) → Nat
  | [], _, _ => 0
  | l :: rest, tb, rb =>
      let tPen := if teacherKey l ∈ tb then 1000 else 0
      let tb' := if teacherKey l ∈ tb then tb else teacherKey l :: tb
      let rPen := if roomKey l ∈ rb then 1000 else 0
      let rb' := if roomKey l ∈ rb then rb else roomKey l :: rb
      tPen + rPen + availabilityPenalty prefs l + calcPenaltyAux prefs rest tb' rb'

/-- `SchedulerGA._calculate_penalty`: scan the schedule once starting
from empty booking sets. -/
def calculatePenalty (prefs : List PrefRow) (sched : List Lecture) : Nat :=
  calcPenaltyAux prefs sched [] []

/-- `SchedulerGA._decode_solution`: the loop body reads
`solution[2*i]` (room index) and `solution[2*i + 1]` (timeslot index)
for lecture `i`, i.e. it consumes the gene list two genes per
requirement; an out-of-range index raises, hence `Option`. -/
def decodeAux (rooms : List Nat) (tss : List Timeslot) :
    List LectureReq → List Nat → Option (List Lecture)
  | [], _ => some []
  | req :: rest, g1 :: g2 :: gs => do
      let room ← rooms.get? g1
      let ts ← tss.get? g2
      let tail ← decodeAux rooms tss rest gs
      pure (⟨req.course_id, req.teacher_id, room, ts⟩ :: tail)
  | _ :: _, _ => none

/-- `SchedulerGA._decode_solution` over the full requirement list. -/
def decodeSolution (rooms : List Nat) (tss : List Timeslot)
    (reqs : List LectureReq) (sol : List Nat) : Option (List Lecture) :=
  decodeAux rooms tss reqs sol

/-- The institution `gene_space` upper bounds, in gene order: for each
lecture requirement, `len(classrooms)` then `len(timeslots)` (each gene
is declared in `[0, high)`). -/
def geneSpaceInst (reqs : List LectureReq) (rooms : List Nat)
    (tss : List Timeslot) : List Nat :=
  reqs.flatMap (fun _ => [rooms.length, tss.length])

/-- The `1e-9` epsilon of both fitness functions, as an exact rational. -/
def epsQ : ℚ := 1 / 1000000000

/-- `fitness = 1.0 / (penalty + 1e-9)`, over `ℚ`. -/
def fitnessQ (p : Nat) : ℚ := 1 / ((p : ℚ) + epsQ)

/-- `SchedulerGA._fitness_function`: decode, compute the penalty, and
return `1.0 / (penalty + 1e-9)`. -/
def fitnessFunctionInst (prefs : List PrefRow) (rooms : List Nat)
    (tss : List Timeslot) (reqs : List LectureReq) (sol : List Nat) :
    Option ℚ :=
  (decodeSolution rooms tss reqs sol).map
    (fun s => fitnessQ (calculatePenalty prefs s))

/-- A row of the student variant's master schedule (columns the source
reads: `course_id` for grouping, `timeslot` and `Day` in the fitness
function; `day` here embeds the `Day` column). -/
structure MLecture where
  course_id : Nat
  timeslot : String
  day : String
deriving DecidableEq, Repr

/-- A row of the `registrations` table. -/
structure Registration where
  student_id : Nat
  course_id : Nat
deriving DecidableEq, Repr

/-- `StudentData.lecture_groups` for one course id: the master-schedule
rows of that course, in order (the grouping loop appends each matching
row). -/
def lectureGroups (master : List MLecture) (cid : Nat) : List MLecture :=
  master.filter (fun l => l.course_id == cid)

/-- `StudentData._prepare_student_data`: filter the registrations of the
student (raising when none), collect the registered course ids in row
order, and flag (warn about) every registered course whose lecture group
is empty; returns `(student_courses, warned_courses)`. -/
def prepareStudentData (sid : Nat) (master : List MLecture)
    (regs : List Registration) : Except String (List Nat × List Nat) :=
  let sregs := regs.filter (fun r => r.student_id == sid)
  if sregs.isEmpty then
    Except.error ("No registration data found for student_id: " ++ toString sid)
  else
    let courses := sregs.map (fun r => r.course_id)
    let warned := courses.filter (fun c => (lectureGroups master c).isEmpty)
    Except.ok (courses, warned)

/-- The `gene_space` build loop of `StudentSchedulerGA.__init__`: one
bound per registered course, raising (ValueError) at the first course
with no available lectures. -/
def buildStudentGeneSpace (groups : Nat → List MLecture) :
    List Nat → Except String (List Nat)
  | [] => Except.ok []
  | cid :: rest =>
      let n := (groups cid).length
      if n = 0 then
        Except.error ("Course " ++ toString cid ++
          " has no available lectures in the master schedule.")
      else (buildStudentGeneSpace groups rest).map (fun gs => n :: gs)

/-- The configured student scheduler (what `StudentSchedulerGA.__init__`
has built when it reaches `_create_ga_instance`). -/
structure StudentGA where
  num_genes : Nat
  gene_space : List Nat
deriving DecidableEq, Repr

/-- `StudentSchedulerGA.__init__`: the gene space is built (raising on a
course with zero choices) strictly before the engine instance is
created, so an error here means no engine and no generation ever runs. -/
def studentSchedulerInit (groups : Nat → List MLecture)
    (courses : List Nat) : Except String StudentGA :=
  (buildStudentGeneSpace groups courses).map
    (fun gs => ⟨courses.length, gs⟩)

/-- `StudentSchedulerGA._decode_solution`: gene `i` indexes into the
lecture group of the `i`-th registered course. -/
def studentDecode (groups : Nat → List MLecture) :
    List Nat → List Nat → Option (List MLecture)
  | [], _ => some []
  | cid :: rest, g :: gs => do
      let lec ← (groups cid).get? g
      let tail ← studentDecode groups rest gs
      pure (lec :: tail)
  | _ :: _, [] => none

/-- The student `gene_space` upper bounds: one per registered course,
`len(lecture_groups[course_id])`. -/
def studentGeneSpace (groups : Nat → List MLecture) (courses : List Nat) :
    List Nat :=
  courses.map (fun c => (groups c).length)

/-- The time-conflict scan of `StudentSchedulerGA._fitness_function`,
with the `booked_timeslots` set explicit: `+1000` per lecture whose
timeslot is already booked. -/
def timeslotConflictPenalty : List MLecture → List String → Nat
  | [], _ => 0
  | l :: rest, booked =>
      if l.timeslot ∈ booked then 1000 + timeslotConflictPenalty rest booked
      else timeslotConflictPenalty rest (l.timeslot :: booked)

/-- The penalty computed inside `StudentSchedulerGA._fitness_function`:
time conflicts plus `len({lecture['Day'] ...}) * 10`. -/
def studentPenalty (sched : List MLecture) : Nat :=
  timeslotConflictPenalty sched [] + (sched.map (fun l => l.day)).dedup.length * 10

/-- `StudentSchedulerGA._fitness_function`: decode, penalize, invert. -/
def fitnessFunctionStudent (groups : Nat → List MLecture)
    (courses : List Nat) (sol : List Nat) : Option ℚ :=
  (studentDecode groups courses sol).map (fun s => fitnessQ (studentPenalty s))

/-- Occurrences already seen while scanning a key list left to right
against an initial seen-set: the number of occurrences beyond the first
(the declarative counterpart of the booking-dict scan). -/
def countNewDup {α : Type} [DecidableEq α] (seen : List α) : List α → Nat
  | [] => 0
  | k :: rest => (if k ∈ seen then 1 else 0) + countNewDup (k :: seen) rest

/-- Modelled from the spec: the engine's best-of-population choice (the
evolution engine itself is the external PyGAD library, not part of the
repository sources) — fold keeping the strictly fitter chromosome, ties
broken in favour of the earlier one (population order). -/
def bestOf {C : Type} (fit : C → ℚ) : C → List C → C
  | c, [] => c
  | c, x :: xs => bestOf fit (if fit c < fit x then x else c) xs

/-- Modelled from the spec: one engine run of `n` generations. Each
generation produces an arbitrary offspring population (`off` abstracts
selection, crossover and mutation) and elitism re-inserts the best
chromosome of the current population, so the best ever observed is never
lost. -/
def evolvePop {C : Type} (off : List C → List C) (fit : C → ℚ)
    (pop0 : List C) : Nat → List C
  | 0 => pop0
  | n + 1 =>
      match evolvePop off fit pop0 n with
      | [] => []
      | c :: cs => bestOf fit c cs :: off (c :: cs)

/-- Modelled from the spec: the best fitness reported for a population
(0 for an empty population, which never arises from a nonempty start). -/
def bestFitnessD {C : Type} (fit : C → ℚ) : List C → ℚ
  | [] => 0
  | c :: cs => fit (bestOf fit c cs)

/-- Numeric value (minutes since midnight) of a rendered `HH:MM`
clock-time character list; the spec-side comparison of C10. -/
def timeVal : List Char → Nat
  | [a, b, _, c, d] =>
      ((a.toNat - 48) * 10 + (b.toNat - 48)) * 60 +
        ((c.toNat - 48) * 10 + (d.toNat - 48))
  | _ => 0

/-- A zero-padded `HH:MM` rendering of a valid clock time. -/
def ValidHHMM (l : List Char) : Prop :=
  ∃ h m, h < 24 ∧ m < 60 ∧ l = hhmmChars h m

-- Sanity checks of the embedding on concrete inputs.
example : allTimeslots.length = 45 := by decide
example : allTimeslots.Nodup := by decide
example : lexLt ['0','8'] ['1','0'] = true := by decide
example : lexLe ['0','8'] ['0','8'] = true := by decide
example : timeVal (hhmmChars 9 30) = 570 := by decide
example :
    decodeSolution [7] allTimeslots [⟨1, 2⟩] [0, 3] =
      some [⟨1, 2, 7, ⟨"Sunday", timeChars 11⟩⟩] := by decide
example :
    calculatePenalty [] [⟨1, 2, 7, ⟨"Sunday", timeChars 11⟩⟩] = 500 := by decide
example :
    calculatePenalty [⟨2, "Sunday", timeChars 8, timeChars 12⟩]
      [⟨1, 2, 7, ⟨"Sunday", timeChars 11⟩⟩] = 0 := by decide
example :
    calculatePenalty [⟨2, "Sunday", timeChars 8, timeChars 12⟩]
      [⟨1, 2, 7, ⟨"Sunday", timeChars 11⟩⟩,
       ⟨1, 2, 7, ⟨"Sunday", timeChars 11⟩⟩] = 2000 := by decide
example :
    studentPenalty [⟨1, "a", "Mon"⟩, ⟨2, "a", "Mon"⟩] = 1010 := by decide
example :
    studentPenalty [⟨1, "a", "Mon"⟩, ⟨2, "b", "Tue"⟩] = 20 := by decide
example :
    studentSchedulerInit (lectureGroups []) [101] =
      Except.error ("Course 101 has no available lectures in the master schedule.") := by
  rfl
example :
    prepareStudentData 1 [] [⟨1, 101⟩] = Except.ok ([101], [101]) := by rfl

/-- C5: the derived timeslot universe of the institution variant has
exactly 45 distinct timeslots — the cross-product of the 5 weekdays with
the 9 hours 8..16 — generated in day-major, hour-minor order: the slot
at position `9*d + h` is hour `8+h` of day `d`. -/
theorem timeslot_universe_spec :
    allTimeslots.length = 45 ∧ allTimeslots.Nodup ∧
    ∀ (d : Fin 5) (h : Fin 9),
      allTimeslots.get? (9 * d.val + h.val) =
        some ⟨weekDays.getD d.val "", timeChars (8 + h.val)⟩ :=
  ⟨by decide, by decide, by decide⟩

/-- C4: in both variants the fitness handed to the engine for a
chromosome is `1 / (penalty + 1e-9)`; the denominator is strictly
positive (no division by zero, even at penalty 0), the fitness is
strictly positive, and it is strictly decreasing in the penalty. -/
theorem fitness_inverse_penalty :
    (∀ p : Nat, (0 : ℚ) < (p : ℚ) + epsQ) ∧
    (∀ p : Nat, 0 < fitnessQ p) ∧
    (∀ p q : Nat, p < q → fitnessQ q < fitnessQ p) ∧
    (∀ prefs rooms tss reqs sol sched,
      decodeSolution rooms tss reqs sol = some sched →
      fitnessFunctionInst prefs rooms tss reqs sol =
        some (fitnessQ (calculatePenalty prefs sched))) ∧
    (∀ groups courses sol ss,
      studentDecode groups courses sol = some ss →
      fitnessFunctionStudent groups courses sol =
        some (fitnessQ (studentPenalty ss))) := by
  have hpos : ∀ p : Nat, (0 : ℚ) < (p : ℚ) + epsQ := by
    intro p
    have h1 : (0 : ℚ) ≤ (p : ℚ) := Nat.cast_nonneg p
    have h2 : (0 : ℚ) < epsQ := by norm_num [epsQ]
    linarith
  refine ⟨hpos, ?_, ?_, ?_, ?_⟩
  · intro p
    exact one_div_pos.mpr (hpos p)
  · intro p q hpq
    have hmono : (p : ℚ) + epsQ < (q : ℚ) + epsQ := by
      have := (Nat.cast_lt (α := ℚ)).mpr hpq
      linarith
    exact one_div_lt_one_div_of_lt (hpos p) hmono
  · intro prefs rooms tss reqs sol sched hdec
    simp [fitnessFunctionInst, hdec]
  · intro groups courses sol ss hdec
    simp [fitnessFunctionStudent, hdec]

/-- Witness for C4 at concrete inputs. -/
theorem fitness_inverse_penalty_witness :
    (0 : ℚ) < ((3 : Nat) : ℚ) + epsQ ∧ 0 < fitnessQ 0 ∧
    fitnessQ 1000 < fitnessQ 0 ∧
    fitnessFunctionInst [] [7] allTimeslots [⟨1, 2⟩] [0, 3] =
      some (fitnessQ (calculatePenalty []
        [⟨1, 2, 7, ⟨"Sunday", timeChars 11⟩⟩])) ∧
    fitnessFunctionStudent (lectureGroups [⟨5, "Sunday_09:00", "Sunday"⟩]) [5] [0] =
      some (fitnessQ (studentPenalty [⟨5, "Sunday_09:00", "Sunday"⟩])) :=
  ⟨fitness_inverse_penalty.1 3, fitness_inverse_penalty.2.1 0,
   fitness_inverse_penalty.2.2.1 0 1000 (by decide),
   fitness_inverse_penalty.2.2.2.1 [] [7] allTimeslots [⟨1, 2⟩] [0, 3]
     [⟨1, 2, 7, ⟨"Sunday", timeChars 11⟩⟩] (by decide),
   fitness_inverse_penalty.2.2.2.2 (lectureGroups [⟨5, "Sunday_09:00", "Sunday"⟩])
     [5] [0] [⟨5, "Sunday_09:00", "Sunday"⟩] (by decide)⟩

/-- At a registered course with an empty lecture group, the gene-space
build loop of `StudentSchedulerGA.__init__` raises. -/
theorem buildStudentGeneSpace_error_of_empty (groups : Nat → List MLecture) :
    ∀ (courses : List Nat) (c : Nat), c ∈ courses → groups c = [] →
      ∃ e, buildStudentGeneSpace groups courses = Except.error e := by
  intro courses
  induction courses with
  | nil => intro c hc; cases hc
  | cons hd tl ih =>
      intro c hc hempty
      by_cases hhd : (groups hd).length = 0
      · refine ⟨"Course " ++ toString hd ++
          " has no available lectures in the master schedule.", ?_⟩
        simp [buildStudentGeneSpace, hhd]
      · have hctl : c ∈ tl := by
          rcases List.mem_cons.mp hc with rfl | htl
          · exact absurd (by rw [hempty]; rfl) hhd
          · exact htl
        obtain ⟨e, he⟩ := ih c hctl hempty
        exact ⟨e, by simp [buildStudentGeneSpace, hhd, he, Except.map]⟩

/-- C7: a student registered for a course with no lecture offering in
the master schedule makes the student-scheduler construction fail with
an error (the gene space is rejected before any engine instance exists,
so no generation ever runs). -/
theorem student_zero_choice_fails_fast (master : List MLecture)
    (courses : List Nat) (c : Nat) (hc : c ∈ courses)
    (hempty : lectureGroups master c = []) :
    ∃ e, studentSchedulerInit (lectureGroups master) courses =
      Except.error e := by
  obtain ⟨e, he⟩ :=
    buildStudentGeneSpace_error_of_empty (lectureGroups master) courses c hc hempty
  exact ⟨e, by simp [studentSchedulerInit, he, Except.map]⟩

/-- Witness for C7 at a concrete instance. -/
theorem student_zero_choice_fails_fast_witness :
    ∃ e, studentSchedulerInit (lectureGroups []) [101] = Except.error e :=
  student_zero_choice_fails_fast [] [101] 101 (by decide) (by decide)

/-- C8 counterexample: at a concrete input with a registered course
absent from the master schedule, the data-preparation stage succeeds
and flags the course (the observable warning), but constructing the
student scheduler on that data fails — the run does not proceed, so the
condition is not non-fatal for the run as the claim states. -/
theorem student_missing_course_counterexample :
    prepareStudentData 1 [] [⟨1, 101⟩] = Except.ok ([101], [101]) ∧
    studentSchedulerInit (lectureGroups []) [101] =
      Except.error
        ("Course 101 has no available lectures in the master schedule.") :=
  ⟨rfl, rfl⟩

/-- C8 (amended): a registered course with no matching lectures is
non-fatal for the data-preparation stage only — the course is flagged
by the observable warning and preparation completes — but the run does
not proceed: the subsequent student-scheduler construction fails. -/
theorem student_missing_course_warns_then_init_fails
    (sid : Nat) (master : List MLecture) (regs : List Registration)
    (courses warned : List Nat) (c : Nat)
    (hprep : prepareStudentData sid master regs = Except.ok (courses, warned))
    (hc : c ∈ courses) (hempty : lectureGroups master c = []) :
    c ∈ warned ∧
    ∃ e, studentSchedulerInit (lectureGroups master) courses =
      Except.error e := by
  have hwarn : c ∈ warned := by
    unfold prepareStudentData at hprep
    by_cases hre : (regs.filter (fun r => r.student_id == sid)).isEmpty
    · simp [hre] at hprep
    · simp only [hre, if_neg, Bool.false_eq_true, not_false_eq_true,
        Except.ok.injEq, Prod.mk.injEq] at hprep
      obtain ⟨hcourses, hwarned⟩ := hprep
      rw [← hwarned]
      refine List.mem_filter.mpr ⟨?_, by simp [hempty]⟩
      rw [hcourses]; exact hc
  refine ⟨hwarn, ?_⟩
  obtain ⟨e, he⟩ :=
    buildStudentGeneSpace_error_of_empty (lectureGroups master) courses c hc hempty
  exact ⟨e, by simp [studentSchedulerInit, he, Except.map]⟩

/-- Witness for the amended C8 at a concrete instance. -/
theorem student_missing_course_warns_then_init_fails_witness :
    101 ∈ ([101] : List Nat) ∧
    ∃ e, studentSchedulerInit (lectureGroups []) [101] = Except.error e :=
  student_missing_course_warns_then_init_fails 1 [] [⟨1, 101⟩] [101] [101] 101
    rfl (by decide) rfl

/-- The fold choosing the best chromosome never decreases fitness. -/
theorem le_fit_bestOf {C : Type} (fit : C → ℚ) :
    ∀ (xs : List C) (c : C), fit c ≤ fit (bestOf fit c xs) := by
  intro xs
  induction xs with
  | nil => intro c; simp [bestOf]
  | cons x xs ih =>
      intro c
      simp only [bestOf]
      refine le_trans ?_ (ih _)
      by_cases h : fit c < fit x
      · rw [if_pos h]; exact le_of_lt h
      · rw [if_neg h]

/-- An engine run started on a nonempty population never empties it. -/
theorem evolvePop_ne_nil {C : Type} (off : List C → List C) (fit : C → ℚ)
    (pop0 : List C) (h : pop0 ≠ []) : ∀ n, evolvePop off fit pop0 n ≠ [] := by
  intro n
  induction n with
  | zero => simpa [evolvePop]
  | succ n ih =>
      simp only [evolvePop]
      cases hp : evolvePop off fit pop0 n with
      | nil => exact absurd hp ih
      | cons c cs => simp

/-- C6: for any offspring mechanism (selection, crossover, mutation
abstracted), any fitness function and any nonempty starting population,
elitism makes the reported best-fitness sequence non-decreasing from
each generation to the next. -/
theorem best_fitness_monotone {C : Type} (off : List C → List C)
    (fit : C → ℚ) (pop0 : List C) (h : pop0 ≠ []) (n : Nat) :
    bestFitnessD fit (evolvePop off fit pop0 n) ≤
      bestFitnessD fit (evolvePop off fit pop0 (n + 1)) := by
  cases hp : evolvePop off fit pop0 n with
  | nil => exact absurd hp (evolvePop_ne_nil off fit pop0 h n)
  | cons c cs =>
      have hstep : evolvePop off fit pop0 (n + 1) =
          bestOf fit c cs :: off (c :: cs) := by
        simp only [evolvePop, hp]
      rw [hstep]
      simp only [bestFitnessD]
      exact le_fit_bestOf fit (off (c :: cs)) (bestOf fit c cs)

/-- Witness for C6 at a concrete run. -/
theorem best_fitness_monotone_witness :
    bestFitnessD (fun c => (c : ℚ))
        (evolvePop (fun p => p) (fun c => (c : ℚ)) [1, 2] 0) ≤
      bestFitnessD (fun c => (c : ℚ))
        (evolvePop (fun p => p) (fun c => (c : ℚ)) [1, 2] 1) :=
  best_fitness_monotone (fun p => p) (fun c => (c : ℚ)) [1, 2] (by decide) 0

/-- The seen-set of the duplicate count only matters up to membership. -/
theorem countNewDup_congr {α : Type} [DecidableEq α] (l : List α) :
    ∀ s₁ s₂ : List α, (∀ x, x ∈ s₁ ↔ x ∈ s₂) →
      countNewDup s₁ l = countNewDup s₂ l := by
  induction l with
  | nil => intro _ _ _; rfl
  | cons k rest ih =>
      intro s₁ s₂ h
      simp only [countNewDup]
      rw [if_congr (h k) rfl rfl, ih (k :: s₁) (k :: s₂) ?_]
      intro x
      simp only [List.mem_cons]
      exact or_congr Iff.rfl (h x)

/-- Extending the seen-set by an element it already holds changes no
duplicate count. -/
theorem countNewDup_cons_of_mem {α : Type} [DecidableEq α] {x : α}
    {s : List α} (hx : x ∈ s) (l : List α) :
    countNewDup (x :: s) l = countNewDup s l :=
  countNewDup_congr l (x :: s) s (fun y => by
    simp only [List.mem_cons]
    constructor
    · rintro (rfl | hy)
      · exact hx
      · exact hy
    · exact Or.inr)

/-- The booking-dict scan of `_calculate_penalty` decomposes into the
three independent counts: teacher-key repeats, room-key repeats, and
per-lecture availability terms. -/
theorem calcPenaltyAux_decomposed (prefs : List PrefRow) :
    ∀ (sched : List Lecture) (tb rb : List (Nat × Timeslot)),
      calcPenaltyAux prefs sched tb rb =
        1000 * countNewDup tb (sched.map teacherKey) +
        1000 * countNewDup rb (sched.map roomKey) +
        (sched.map (availabilityPenalty prefs)).sum := by
  intro sched
  induction sched with
  | nil => intro tb rb; simp [calcPenaltyAux, countNewDup]
  | cons l rest ih =>
      intro tb rb
      simp only [calcPenaltyAux, List.map_cons, countNewDup, List.sum_cons]
      by_cases ht : teacherKey l ∈ tb <;> by_cases hr : roomKey l ∈ rb
      · simp only [if_pos ht, if_pos hr]
        rw [ih tb rb, countNewDup_cons_of_mem ht, countNewDup_cons_of_mem hr]
        omega
      · simp only [if_pos ht, if_neg hr]
        rw [ih tb (roomKey l :: rb), countNewDup_cons_of_mem ht]
        omega
      · simp only [if_neg ht, if_pos hr]
        rw [ih (teacherKey l :: tb) rb, countNewDup_cons_of_mem hr]
        omega
      · simp only [if_neg ht, if_neg hr]
        rw [ih (teacherKey l :: tb) (roomKey l :: rb)]
        omega

/-- The summed availability terms split into the two 500-weighted
counts: lectures whose teacher has no window for the day, and lectures
whose teacher has windows but whose start time lies in none of them. -/
theorem availability_sum_split (prefs : List PrefRow) :
    ∀ sched : List Lecture,
      (sched.map (availabilityPenalty prefs)).sum =
        500 * sched.countP (fun l =>
          (prefWindows prefs l.teacher_id l.timeslot.day).isEmpty) +
        500 * sched.countP (fun l =>
          !(prefWindows prefs l.teacher_id l.timeslot.day).isEmpty &&
          !((prefWindows prefs l.teacher_id l.timeslot.day).any
              (fun w => lexLe w.1 l.timeslot.time &&
                lexLt l.timeslot.time w.2))) := by
  intro sched
  induction sched with
  | nil => simp
  | cons l rest ih =>
      simp only [List.map_cons, List.sum_cons, List.countP_cons, ih]
      by_cases h1 : (prefWindows prefs l.teacher_id l.timeslot.day).isEmpty <;>
        by_cases h2 : (prefWindows prefs l.teacher_id l.timeslot.day).any
          (fun w => lexLe w.1 l.timeslot.time && lexLt l.timeslot.time w.2)
      · have hav : availabilityPenalty prefs l = 500 := by
          simp [availabilityPenalty, h1]
        rw [hav]; simp [h1, h2]; omega
      · have hav : availabilityPenalty prefs l = 500 := by
          simp [availabilityPenalty, h1]
        rw [hav]; simp [h1, h2]; omega
      · have hav : availabilityPenalty prefs l = 0 := by
          simp [availabilityPenalty, h1, h2]
        rw [hav]; simp [h1, h2]
      · have hav : availabilityPenalty prefs l = 500 := by
          simp [availabilityPenalty, h1, h2]
        rw [hav]; simp [h1, h2]; omega

/-- C3: the institution penalty equals 1000 per teacher-key occurrence
beyond the first (scanning in order), plus 1000 per room-key occurrence
beyond the first, plus 500 per lecture whose teacher has no availability
window for the day, plus 500 per lecture whose teacher has windows but
whose start time lies in none of the half-open windows under the exact
comparison. -/
theorem institution_penalty_formula (prefs : List PrefRow)
    (sched : List Lecture) :
    calculatePenalty prefs sched =
      1000 * countNewDup [] (sched.map teacherKey) +
      1000 * countNewDup [] (sched.map roomKey) +
      500 * sched.countP (fun l =>
        (prefWindows prefs l.teacher_id l.timeslot.day).isEmpty) +
      500 * sched.countP (fun l =>
        !(prefWindows prefs l.teacher_id l.timeslot.day).isEmpty &&
        !((prefWindows prefs l.teacher_id l.timeslot.day).any
            (fun w => lexLe w.1 l.timeslot.time &&
              lexLt l.timeslot.time w.2))) := by
  rw [calculatePenalty, calcPenaltyAux_decomposed, availability_sum_split]
  omega

/-- The scan duplicate count is zero exactly when the keys are pairwise
distinct and none was pre-seeded. -/
theorem countNewDup_eq_zero {α : Type} [DecidableEq α] :
    ∀ (l s : List α),
      (countNewDup s l = 0 ↔ l.Nodup ∧ ∀ x ∈ l, x ∉ s) := by
  intro l
  induction l with
  | nil => intro s; simp [countNewDup]
  | cons k rest ih =>
      intro s
      simp only [countNewDup, Nat.add_eq_zero, ih (k :: s), List.nodup_cons,
        List.mem_cons]
      constructor
      · rintro ⟨hk, hnd, hmem⟩
        have hks : k ∉ s := by
          intro hin
          rw [if_pos hin] at hk
          exact one_ne_zero hk
        refine ⟨⟨fun hkrest => ?_, hnd⟩, ?_⟩
        · exact (hmem k hkrest) (Or.inl rfl)
        · rintro x (rfl | hx)
          · exact hks
          · intro hxs
            exact (hmem x hx) (Or.inr hxs)
      · rintro ⟨⟨hknot, hnd⟩, hmem⟩
        have hks : k ∉ s := hmem k (Or.inl rfl)
        refine ⟨by rw [if_neg hks], hnd, ?_⟩
        rintro x hx (rfl | hxs)
        · exact hknot hx
        · exact (hmem x (Or.inr hx)) hxs

/-- The per-lecture availability term vanishes exactly when the teacher
has a declared window for the day containing the start time. -/
theorem availabilityPenalty_eq_zero (prefs : List PrefRow) (l : Lecture) :
    availabilityPenalty prefs l = 0 ↔
      prefWindows prefs l.teacher_id l.timeslot.day ≠ [] ∧
      ∃ w ∈ prefWindows prefs l.teacher_id l.timeslot.day,
        lexLe w.1 l.timeslot.time = true ∧
        lexLt l.timeslot.time w.2 = true := by
  unfold availabilityPenalty
  by_cases h1 : (prefWindows prefs l.teacher_id l.timeslot.day).isEmpty
  · rw [if_pos h1]
    simp only [List.isEmpty_iff] at h1
    simp [h1]
  · rw [if_neg h1]
    simp only [List.isEmpty_iff] at h1
    by_cases h2 : (prefWindows prefs l.teacher_id l.timeslot.day).any
        (fun w => lexLe w.1 l.timeslot.time && lexLt l.timeslot.time w.2)
    · rw [if_pos h2]
      simp only [List.any_eq_true, Bool.and_eq_true] at h2
      simp only [eq_self_iff_true, true_iff]
      exact ⟨h1, h2⟩
    · rw [if_neg h2]
      simp only [List.any_eq_true, Bool.and_eq_true, not_exists] at h2
      constructor
      · intro h500; exact absurd h500 (by norm_num)
      · rintro ⟨-, w, hw, hle, hlt⟩
        exact absurd ⟨hw, hle, hlt⟩ (h2 w)

/-- C1: the institution penalty of a decoded schedule is 0 exactly when
no two lectures share a (teacher, timeslot) key, no two share a
(room, timeslot) key, and every lecture's teacher has at least one
declared window for the lecture's day containing the start time. -/
theorem institution_penalty_zero_iff (prefs : List PrefRow)
    (rooms : List Nat) (tss : List Timeslot) (reqs : List LectureReq)
    (sol : List Nat) (sched : List Lecture)
    (_hdec : decodeSolution rooms tss reqs sol = some sched) :
    calculatePenalty prefs sched = 0 ↔
      (sched.map teacherKey).Nodup ∧ (sched.map roomKey).Nodup ∧
      ∀ l ∈ sched,
        prefWindows prefs l.teacher_id l.timeslot.day ≠ [] ∧
        ∃ w ∈ prefWindows prefs l.teacher_id l.timeslot.day,
          lexLe w.1 l.timeslot.time = true ∧
          lexLt l.timeslot.time w.2 = true := by
  rw [calculatePenalty, calcPenaltyAux_decomposed]
  constructor
  · intro h
    have h1 : countNewDup [] (sched.map teacherKey) = 0 := by omega
    have h2 : countNewDup [] (sched.map roomKey) = 0 := by omega
    have h3 : (sched.map (availabilityPenalty prefs)).sum = 0 := by omega
    refine ⟨((countNewDup_eq_zero _ _).mp h1).1,
      ((countNewDup_eq_zero _ _).mp h2).1, ?_⟩
    intro l hl
    have hz : availabilityPenalty prefs l = 0 :=
      List.sum_eq_zero_iff.mp h3 _ (List.mem_map_of_mem _ hl)
    exact (availabilityPenalty_eq_zero prefs l).mp hz
  · rintro ⟨hnd1, hnd2, hav⟩
    have h1 : countNewDup [] (sched.map teacherKey) = 0 :=
      (countNewDup_eq_zero _ _).mpr ⟨hnd1, by simp⟩
    have h2 : countNewDup [] (sched.map roomKey) = 0 :=
      (countNewDup_eq_zero _ _).mpr ⟨hnd2, by simp⟩
    have h3 : (sched.map (availabilityPenalty prefs)).sum = 0 := by
      apply List.sum_eq_zero
      intro x hx
      obtain ⟨l, hl, rfl⟩ := List.mem_map.mp hx
      exact (availabilityPenalty_eq_zero prefs l).mpr (hav l hl)
    omega

/-- Witness for C1 at a concrete decoded schedule. -/
theorem institution_penalty_zero_iff_witness :
    calculatePenalty [⟨2, "Sunday", timeChars 8, timeChars 12⟩]
        [⟨1, 2, 7, ⟨"Sunday", timeChars 11⟩⟩] = 0 ↔
      (([⟨1, 2, 7, ⟨"Sunday", timeChars 11⟩⟩] : List Lecture).map
          teacherKey).Nodup ∧
      (([⟨1, 2, 7, ⟨"Sunday", timeChars 11⟩⟩] : List Lecture).map
          roomKey).Nodup ∧
      ∀ l ∈ ([⟨1, 2, 7, ⟨"Sunday", timeChars 11⟩⟩] : List Lecture),
        prefWindows [⟨2, "Sunday", timeChars 8, timeChars 12⟩]
          l.teacher_id l.timeslot.day ≠ [] ∧
        ∃ w ∈ prefWindows [⟨2, "Sunday", timeChars 8, timeChars 12⟩]
            l.teacher_id l.timeslot.day,
          lexLe w.1 l.timeslot.time = true ∧
          lexLt l.timeslot.time w.2 = true :=
  institution_penalty_zero_iff [⟨2, "Sunday", timeChars 8, timeChars 12⟩]
    [7] allTimeslots [⟨1, 2⟩] [0, 3]
    [⟨1, 2, 7, ⟨"Sunday", timeChars 11⟩⟩] (by decide)

/-- In-bounds chromosomes decode without failure, one record per
lecture-hour requirement, preserving each requirement's course and
teacher in order. -/
theorem decodeSolution_total (rooms : List Nat) (tss : List Timeslot) :
    ∀ (reqs : List LectureReq) (sol : List Nat),
      List.Forall₂ (fun g b => g < b) sol (geneSpaceInst reqs rooms tss) →
      ∃ sched, decodeSolution rooms tss reqs sol = some sched ∧
        sched.map (fun l => (l.course_id, l.teacher_id)) =
          reqs.map (fun r => (r.course_id, r.teacher_id)) := by
  intro reqs
  induction reqs with
  | nil =>
      intro sol h
      have hnil : geneSpaceInst [] rooms tss = [] := rfl
      rw [hnil] at h
      cases h
      exact ⟨[], rfl, rfl⟩
  | cons req rest ih =>
      intro sol h
      have hgs : geneSpaceInst (req :: rest) rooms tss =
          rooms.length :: tss.length :: geneSpaceInst rest rooms tss := rfl
      rw [hgs] at h
      cases h with
      | cons hg1 h' =>
        cases h' with
        | cons hg2 h'' =>
          obtain ⟨tail, htail, hmap⟩ := ih _ h''
          simp only [decodeSolution] at htail
          refine ⟨⟨req.course_id, req.teacher_id, rooms.get ⟨_, hg1⟩,
            tss.get ⟨_, hg2⟩⟩ :: tail, ?_, ?_⟩
          · simp [decodeSolution, decodeAux, List.get?_eq_get hg1,
              List.get?_eq_get hg2, List.getElem?_eq_getElem hg1,
              List.getElem?_eq_getElem hg2, htail]
          · simp only [List.map_cons, hmap]

/-- Every produced lecture requirement comes from some teacher-course
row. -/
theorem lecturesToSchedule_mem (courses : List CourseRow) :
    ∀ (tcs : List TeacherCourseRow) (L : List LectureReq),
      lecturesToSchedule courses tcs = some L →
      ∀ req ∈ L, ∃ tc ∈ tcs, req = ⟨tc.course_id, tc.teacher_id⟩ := by
  intro tcs
  induction tcs with
  | nil =>
      intro L hL req hreq
      simp only [lecturesToSchedule, Option.some.injEq] at hL
      subst hL
      cases hreq
  | cons tc rest ih =>
      intro L hL req hreq
      cases hn : lecturesPerWeek courses tc.course_id with
      | none => simp [lecturesToSchedule, hn] at hL
      | some n =>
          cases ht : lecturesToSchedule courses rest with
          | none => simp [lecturesToSchedule, hn, ht] at hL
          | some tail =>
              simp only [lecturesToSchedule, hn, ht, Option.bind_eq_bind,
                Option.some_bind, Option.pure_def, Option.some.injEq] at hL
              rw [← hL] at hreq
              rcases List.mem_append.mp hreq with hrep | htl
              · exact ⟨tc, List.mem_cons_self tc rest,
                  List.eq_of_mem_replicate hrep⟩
              · obtain ⟨tc', htc', heq⟩ := ih tail ht req htl
                exact ⟨tc', List.mem_cons_of_mem tc htc', heq⟩

/-- With pairwise-distinct (teacher, course) rows, each requirement
appears in the built list exactly `lectures_per_week` times. -/
theorem lecturesToSchedule_count (courses : List CourseRow) :
    ∀ (tcs : List TeacherCourseRow) (L : List LectureReq),
      lecturesToSchedule courses tcs = some L →
      (tcs.map (fun tc => (tc.teacher_id, tc.course_id))).Nodup →
      ∀ tc ∈ tcs, ∀ n, lecturesPerWeek courses tc.course_id = some n →
        L.count (⟨tc.course_id, tc.teacher_id⟩ : LectureReq) = n := by
  intro tcs
  induction tcs with
  | nil => intro L _ _ tc htc; cases htc
  | cons tc0 rest ih =>
      intro L hL hnd tc htc n hn
      cases hn0 : lecturesPerWeek courses tc0.course_id with
      | none => simp [lecturesToSchedule, hn0] at hL
      | some n0 =>
          cases ht : lecturesToSchedule courses rest with
          | none => simp [lecturesToSchedule, hn0, ht] at hL
          | some tail =>
              simp only [lecturesToSchedule, hn0, ht, Option.bind_eq_bind,
                Option.some_bind, Option.pure_def, Option.some.injEq] at hL
              subst hL
              simp only [List.map_cons, List.nodup_cons] at hnd
              obtain ⟨hnotin, hndrest⟩ := hnd
              rw [List.count_append]
              rcases List.mem_cons.mp htc with rfl | htc'
              · have hn0n : n0 = n := by
                  rw [hn0] at hn; exact (Option.some.injEq _ _).mp hn
                subst hn0n
                rw [List.count_replicate_self]
                have hzero :
                    tail.count (⟨tc.course_id, tc.teacher_id⟩ : LectureReq) = 0 := by
                  rw [List.count_eq_zero]
                  intro hmem
                  obtain ⟨tc', htc', heq⟩ :=
                    lecturesToSchedule_mem courses rest tail ht _ hmem
                  apply hnotin
                  have h1 : tc'.course_id = tc.course_id ∧
                      tc'.teacher_id = tc.teacher_id := by
                    have := congrArg LectureReq.course_id heq
                    have := congrArg LectureReq.teacher_id heq
                    simp_all
                  rw [List.mem_map]
                  exact ⟨tc', htc', by rw [h1.1, h1.2]⟩
                omega
              · have hzero : (List.replicate n0
                    (⟨tc0.course_id, tc0.teacher_id⟩ : LectureReq)).count
                      (⟨tc.course_id, tc.teacher_id⟩ : LectureReq) = 0 := by
                  rw [List.count_eq_zero]
                  intro hmem
                  have heq := List.eq_of_mem_replicate hmem
                  apply hnotin
                  have h1 : tc.course_id = tc0.course_id ∧
                      tc.teacher_id = tc0.teacher_id := by
                    have := congrArg LectureReq.course_id heq
                    have := congrArg LectureReq.teacher_id heq
                    simp_all
                  rw [List.mem_map]
                  exact ⟨tc, htc', by rw [h1.1, h1.2]⟩
                rw [ih tail ht hndrest tc htc' n hn]
                omega

/-- In-bounds student chromosomes decode without failure: one chosen
offering per registered course, drawn from that course's group. -/
theorem studentDecode_total (groups : Nat → List MLecture) :
    ∀ (courses : List Nat) (sol : List Nat),
      List.Forall₂ (fun g b => g < b) sol (studentGeneSpace groups courses) →
      ∃ ss, studentDecode groups courses sol = some ss ∧
        ss.length = courses.length ∧
        List.Forall₂ (fun cid lec => lec ∈ groups cid) courses ss := by
  intro courses
  induction courses with
  | nil =>
      intro sol h
      have hnil : studentGeneSpace groups [] = [] := rfl
      rw [hnil] at h
      cases h
      exact ⟨[], rfl, rfl, List.Forall₂.nil⟩
  | cons cid rest ih =>
      intro sol h
      have hgs : studentGeneSpace groups (cid :: rest) =
          (groups cid).length :: studentGeneSpace groups rest := rfl
      rw [hgs] at h
      cases h with
      | cons hg h' =>
        obtain ⟨tail, htail, hlen, hmem⟩ := ih _ h'
        refine ⟨(groups cid).get ⟨_, hg⟩ :: tail, ?_, ?_, ?_⟩
        · simp [studentDecode, List.get?_eq_get hg,
            List.getElem?_eq_getElem hg, htail]
        · simp [hlen]
        · exact List.Forall₂.cons (List.get_mem _ _ _) hmem

/-- C2: for every chromosome whose genes respect their declared
`[low, high)` bounds, decode never fails and yields exactly one
assignment per decision unit — institution: one record per lecture-hour
requirement in order, each (teacher, course) pair of the input
contributing exactly `lectures_per_week` requirements; student: exactly
one chosen offering per registered course. -/
theorem decode_total_one_per_unit :
    (∀ (rooms : List Nat) (tss : List Timeslot) (reqs : List LectureReq)
        (sol : List Nat),
      List.Forall₂ (fun g b => g < b) sol (geneSpaceInst reqs rooms tss) →
      ∃ sched, decodeSolution rooms tss reqs sol = some sched ∧
        sched.map (fun l => (l.course_id, l.teacher_id)) =
          reqs.map (fun r => (r.course_id, r.teacher_id))) ∧
    (∀ (courses : List CourseRow) (tcs : List TeacherCourseRow)
        (L : List LectureReq),
      lecturesToSchedule courses tcs = some L →
      (tcs.map (fun tc => (tc.teacher_id, tc.course_id))).Nodup →
      ∀ tc ∈ tcs, ∀ n, lecturesPerWeek courses tc.course_id = some n →
        L.count (⟨tc.course_id, tc.teacher_id⟩ : LectureReq) = n) ∧
    (∀ (groups : Nat → List MLecture) (courses : List Nat) (sol : List Nat),
      List.Forall₂ (fun g b => g < b) sol (studentGeneSpace groups courses) →
      ∃ ss, studentDecode groups courses sol = some ss ∧
        ss.length = courses.length ∧
        List.Forall₂ (fun cid lec => lec ∈ groups cid) courses ss) :=
  ⟨decodeSolution_total, lecturesToSchedule_count, studentDecode_total⟩

/-- Witness for C2 at concrete inputs for all three parts. -/
theorem decode_total_one_per_unit_witness :
    (∃ sched, decodeSolution [7] allTimeslots [⟨1, 2⟩] [0, 3] = some sched ∧
      sched.map (fun l => (l.course_id, l.teacher_id)) =
        ([⟨1, 2⟩] : List LectureReq).map
          (fun r => (r.course_id, r.teacher_id))) ∧
    (List.replicate 3 (⟨1, 2⟩ : LectureReq)).count
      (⟨1, 2⟩ : LectureReq) = 3 ∧
    (∃ ss, studentDecode
        (lectureGroups [⟨5, "Sunday_09:00", "Sunday"⟩]) [5] [0] = some ss ∧
      ss.length = ([5] : List Nat).length ∧
      List.Forall₂ (fun cid lec =>
          lec ∈ lectureGroups [⟨5, "Sunday_09:00", "Sunday"⟩] cid)
        [5] ss) :=
  ⟨decode_total_one_per_unit.1 [7] allTimeslots [⟨1, 2⟩] [0, 3]
      (List.Forall₂.cons (by decide)
        (List.Forall₂.cons (by decide) List.Forall₂.nil)),
   decode_total_one_per_unit.2.1 [⟨1, 3⟩] [⟨2, 1⟩]
      (List.replicate 3 (⟨1, 2⟩ : LectureReq)) rfl (by decide)
      (⟨2, 1⟩ : TeacherCourseRow) (by decide) 3 rfl,
   decode_total_one_per_unit.2.2
      (lectureGroups [⟨5, "Sunday_09:00", "Sunday"⟩]) [5] [0]
      (List.Forall₂.cons (by decide) List.Forall₂.nil)⟩

/-- C9: a student registered for exactly two courses with one offering
each, overlapping in timeslot: every in-bounds chromosome decodes to
exactly those two entries and its penalty is `1000 + 10 * d` with `d`
the number of distinct days of the two offerings; in general the
day-spread term contributes 10 per distinct attended day. -/
theorem student_two_course_overlap :
    (∀ (groups : Nat → List MLecture) (c1 c2 : Nat) (l1 l2 : MLecture)
        (sol : List Nat),
      groups c1 = [l1] → groups c2 = [l2] → l1.timeslot = l2.timeslot →
      List.Forall₂ (fun g b => g < b) sol (studentGeneSpace groups [c1, c2]) →
      studentDecode groups [c1, c2] sol = some [l1, l2] ∧
      studentPenalty [l1, l2] =
        1000 + 10 * (if l1.day = l2.day then 1 else 2)) ∧
    (∀ sched : List MLecture,
      studentPenalty sched =
        timeslotConflictPenalty sched [] +
          10 * (sched.map (fun l => l.day)).toFinset.card) := by
  constructor
  · intro groups c1 c2 l1 l2 sol h1 h2 hts hb
    have hgs : studentGeneSpace groups [c1, c2] = [1, 1] := by
      simp [studentGeneSpace, h1, h2]
    rw [hgs] at hb
    have hsol : ∃ g1 g2, sol = [g1, g2] ∧ g1 < 1 ∧ g2 < 1 := by
      cases hb with
      | cons hg1 hb' =>
        cases hb' with
        | cons hg2 hb'' =>
          cases hb''
          exact ⟨_, _, rfl, hg1, hg2⟩
    obtain ⟨g1, g2, rfl, hg1, hg2⟩ := hsol
    obtain rfl : g1 = 0 := Nat.lt_one_iff.mp hg1
    obtain rfl : g2 = 0 := Nat.lt_one_iff.mp hg2
    constructor
    · simp [studentDecode, h1, h2]
    · have hconf : timeslotConflictPenalty [l1, l2] [] = 1000 := by
        simp [timeslotConflictPenalty, hts]
      have hdays : (([l1, l2].map (fun l => l.day)).dedup).length =
          if l1.day = l2.day then 1 else 2 := by
        by_cases hday : l1.day = l2.day
        · rw [List.map_cons, List.map_cons, List.map_nil, hday, if_pos rfl,
            List.dedup_cons_of_mem (by simp)]
          simp
        · rw [List.map_cons, List.map_cons, List.map_nil, if_neg hday,
            List.dedup_cons_of_not_mem (by simp [hday])]
          simp
      rw [studentPenalty, hconf, hdays]
      split_ifs <;> norm_num
  · intro sched
    rw [studentPenalty, List.card_toFinset]
    ring

/-- Witness for C9 at a concrete two-course master schedule. -/
theorem student_two_course_overlap_witness :
    (studentDecode
        (lectureGroups [⟨1, "Sunday_09:00", "Sunday"⟩,
          ⟨2, "Sunday_09:00", "Sunday"⟩]) [1, 2] [0, 0] =
      some [⟨1, "Sunday_09:00", "Sunday"⟩, ⟨2, "Sunday_09:00", "Sunday"⟩] ∧
     studentPenalty [⟨1, "Sunday_09:00", "Sunday"⟩,
        ⟨2, "Sunday_09:00", "Sunday"⟩] =
       1000 + 10 * (if (⟨1, "Sunday_09:00", "Sunday"⟩ : MLecture).day =
          (⟨2, "Sunday_09:00", "Sunday"⟩ : MLecture).day then 1 else 2)) ∧
    studentPenalty [⟨3, "a", "Mon"⟩] =
      timeslotConflictPenalty [⟨3, "a", "Mon"⟩] [] +
        10 * (([⟨3, "a", "Mon"⟩] : List MLecture).map
          (fun l => l.day)).toFinset.card :=
  ⟨student_two_course_overlap.1
      (lectureGroups [⟨1, "Sunday_09:00", "Sunday"⟩,
        ⟨2, "Sunday_09:00", "Sunday"⟩]) 1 2
      ⟨1, "Sunday_09:00", "Sunday"⟩ ⟨2, "Sunday_09:00", "Sunday"⟩ [0, 0]
      rfl rfl rfl
      (List.Forall₂.cons (by decide)
        (List.Forall₂.cons (by decide) List.Forall₂.nil)),
   student_two_course_overlap.2 [⟨3, "a", "Mon"⟩]⟩

/-- Decimal digit characters compare like their digits. -/
theorem digitChar_lt_iff :
    ∀ a < 10, ∀ b < 10, (Nat.digitChar a < Nat.digitChar b ↔ a < b) := by
  decide

/-- Code point of a decimal digit character. -/
theorem digitChar_toNat : ∀ a < 10, (Nat.digitChar a).toNat = 48 + a := by
  decide

/-- Lexicographic comparison skips an equal head character. -/
theorem lexLt_cons_same (c : Char) (s t : List Char) :
    lexLt (c :: s) (c :: t) = lexLt s t := by
  simp [lexLt]

/-- Lexicographic comparison of two zero-padded two-digit blocks decides
by the numeric values, falling through to the tails on equality. -/
theorem lexLt_twoDigit_append (x y : Nat) (hx : x < 100) (hy : y < 100)
    (s t : List Char) :
    lexLt (twoDigitChars x ++ s) (twoDigitChars y ++ t) =
      if x < y then true else if y < x then false else lexLt s t := by
  have hx1 : x / 10 < 10 := by omega
  have hx2 : x % 10 < 10 := by omega
  have hy1 : y / 10 < 10 := by omega
  have hy2 : y % 10 < 10 := by omega
  simp only [twoDigitChars, List.cons_append, List.nil_append, lexLt]
  rcases Nat.lt_trichotomy (x / 10) (y / 10) with h | h | h
  · rw [if_pos ((digitChar_lt_iff _ hx1 _ hy1).mpr h), if_pos (by omega)]
  · have hcc : Nat.digitChar (x / 10) = Nat.digitChar (y / 10) := by rw [h]
    rw [hcc, if_neg (lt_irrefl _), if_neg (lt_irrefl _)]
    rcases Nat.lt_trichotomy (x % 10) (y % 10) with h2 | h2 | h2
    · rw [if_pos ((digitChar_lt_iff _ hx2 _ hy2).mpr h2), if_pos (by omega)]
    · have hcc2 : Nat.digitChar (x % 10) = Nat.digitChar (y % 10) := by rw [h2]
      rw [hcc2, if_neg (lt_irrefl _), if_neg (lt_irrefl _),
        if_neg (show ¬x < y by omega), if_neg (show ¬y < x by omega)]
      simp
    · rw [if_neg (fun hlt =>
          absurd ((digitChar_lt_iff _ hx2 _ hy2).mp hlt) (by omega)),
        if_pos ((digitChar_lt_iff _ hy2 _ hx2).mpr h2),
        if_neg (show ¬x < y by omega), if_pos (by omega)]
  · rw [if_neg (fun hlt =>
        absurd ((digitChar_lt_iff _ hx1 _ hy1).mp hlt) (by omega)),
      if_pos ((digitChar_lt_iff _ hy1 _ hx1).mpr h),
      if_neg (show ¬x < y by omega), if_pos (by omega)]

/-- On valid clock times, the embedded Python string comparison of the
zero-padded `HH:MM` renderings agrees with minutes-since-midnight. -/
theorem lexLt_hhmm (h1 m1 h2 m2 : Nat) (hh1 : h1 < 24) (hm1 : m1 < 60)
    (hh2 : h2 < 24) (hm2 : m2 < 60) :
    (lexLt (hhmmChars h1 m1) (hhmmChars h2 m2) = true) ↔
      h1 * 60 + m1 < h2 * 60 + m2 := by
  unfold hhmmChars
  rw [lexLt_twoDigit_append h1 h2 (by omega) (by omega), lexLt_cons_same,
    ← List.append_nil (twoDigitChars m1), ← List.append_nil (twoDigitChars m2),
    lexLt_twoDigit_append m1 m2 (by omega) (by omega)]
  have hnil : lexLt [] [] = false := rfl
  rw [hnil]
  split_ifs <;> simp_all <;> omega

/-- Numeric value of a rendered valid clock time. -/
theorem timeVal_hhmm (h m : Nat) (hh : h < 24) (hm : m < 60) :
    timeVal (hhmmChars h m) = h * 60 + m := by
  have d1 := digitChar_toNat (h / 10) (by omega)
  have d2 := digitChar_toNat (h % 10) (by omega)
  have d3 := digitChar_toNat (m / 10) (by omega)
  have d4 := digitChar_toNat (m % 10) (by omega)
  simp only [hhmmChars, twoDigitChars, List.cons_append, List.nil_append]
  simp only [timeVal, d1, d2, d3, d4]
  omega

/-- C10: every generated timeslot renders its time as a zero-padded
two-digit hour between "08:00" and "16:00", and on such times the
lexicographic window test `start <= time < end` coincides with the
numeric minutes-since-midnight comparison for any zero-padded `HH:MM`
window endpoints. -/
theorem lex_numeric_equiv :
    (∀ ts ∈ allTimeslots, ∃ h, 8 ≤ h ∧ h ≤ 16 ∧ ts.time = timeChars h) ∧
    (∀ ts ∈ allTimeslots, ∀ s e : List Char, ValidHHMM s → ValidHHMM e →
      ((lexLe s ts.time && lexLt ts.time e) = true ↔
        (timeVal s ≤ timeVal ts.time ∧ timeVal ts.time < timeVal e))) := by
  have haux : ∀ ts ∈ allTimeslots, ts.time ∈ slotHours.map timeChars := by
    decide
  have hmem : ∀ ts ∈ allTimeslots,
      ∃ h, 8 ≤ h ∧ h ≤ 16 ∧ ts.time = timeChars h := by
    intro ts hts
    obtain ⟨h, hh, heq⟩ := List.mem_map.mp (haux ts hts)
    have hrange : 8 ≤ h ∧ h < 17 := by
      simpa [slotHours, List.mem_range'_1] using hh
    exact ⟨h, hrange.1, by omega, heq.symm⟩
  refine ⟨hmem, ?_⟩
  intro ts hts s e hs he
  obtain ⟨h, hh8, hh16, htime⟩ := hmem ts hts
  obtain ⟨sh, sm, hsh, hsm, rfl⟩ := hs
  obtain ⟨eh, em, heh, hem, rfl⟩ := he
  have hts0 : timeChars h = hhmmChars h 0 := rfl
  rw [htime, hts0]
  simp only [lexLe, Bool.and_eq_true, Bool.not_eq_true']
  rw [timeVal_hhmm sh sm hsh hsm, timeVal_hhmm h 0 (by omega) (by omega),
    timeVal_hhmm eh em heh hem]
  constructor
  · rintro ⟨hf, ht2⟩
    have h1 : ¬ (h * 60 + 0 < sh * 60 + sm) := by
      intro hlt
      rw [(lexLt_hhmm h 0 sh sm (by omega) (by omega) hsh hsm).mpr hlt] at hf
      cases hf
    have h2 := (lexLt_hhmm h 0 eh em (by omega) (by omega) heh hem).mp ht2
    omega
  · rintro ⟨hle', hlt'⟩
    constructor
    · cases hx : lexLt (hhmmChars h 0) (hhmmChars sh sm)
      · rfl
      · have := (lexLt_hhmm h 0 sh sm (by omega) (by omega) hsh hsm).mp hx
        omega
    · exact (lexLt_hhmm h 0 eh em (by omega) (by omega) heh hem).mpr (by omega)

/-- Witness for C10 at a concrete timeslot and window. -/
theorem lex_numeric_equiv_witness :
    (∃ h, 8 ≤ h ∧ h ≤ 16 ∧
      (⟨"Sunday", timeChars 11⟩ : Timeslot).time = timeChars h) ∧
    ((lexLe (hhmmChars 9 30) (⟨"Sunday", timeChars 11⟩ : Timeslot).time &&
        lexLt (⟨"Sunday", timeChars 11⟩ : Timeslot).time (hhmmChars 12 0)) =
          true ↔
      (timeVal (hhmmChars 9 30) ≤
          timeVal (⟨"Sunday", timeChars 11⟩ : Timeslot).time ∧
        timeVal (⟨"Sunday", timeChars 11⟩ : Timeslot).time <
          timeVal (hhmmChars 12 0))) :=
  ⟨lex_numeric_equiv.1 ⟨"Sunday", timeChars 11⟩ (by decide),
   lex_numeric_equiv.2 ⟨"Sunday", timeChars 11⟩ (by decide)
     (hhmmChars 9 30) (hhmmChars 12 0)
     ⟨9, 30, by omega, by omega, rfl⟩ ⟨12, 0, by omega, by omega, rfl⟩⟩
